import Mathlib

/-!
Verification development for the biokg-llm knowledge-graph pipeline.

The Python sources are embedded shallowly:
  - strings are Lean `String`s manipulated through their `List Char` data,
    with Python's `str.strip`, `str.lower`, `str.replace`, `str.split`,
    `str.startswith` and the relevant regular expressions reimplemented as
    executable structural recursions (ASCII case folding and ASCII character
    classes, matching the ASCII regex classes used by the sources);
  - pandas tables are lists of rows;
  - the external NLP collaborators (SciSpaCy normalization, NLTK
    lemmatization, the fuzzywuzzy scorer) are abstract function parameters;
  - the HTTP transport of the LLM clients is a sequence of per-attempt
    outcomes.
-/

/-! ## Character and string utilities (Python semantics) -/

/-- ASCII word character, the `\w` class of the sources' regexes
(`[A-Za-z0-9_]`). -/
def isWordChar (c : Char) : Bool := c.isAlphanum || c == '_'

/-- Drop elements satisfying `p` from both ends of a list. -/
def dropEdges (p : Char → Bool) (l : List Char) : List Char :=
  ((l.dropWhile p).reverse.dropWhile p).reverse

/-- Python `str.strip()` on the character list. -/
def pyStripL (l : List Char) : List Char :=
  dropEdges (fun c => c.isWhitespace) l

/-- Python `str.strip()`. -/
def pyStrip (s : String) : String := ⟨pyStripL s.data⟩

/-- Python `str.lower()` (ASCII case folding). -/
def pyLowerL (l : List Char) : List Char := l.map Char.toLower

/-- Python `str.lower()` (ASCII case folding). -/
def pyLower (s : String) : String := ⟨pyLowerL s.data⟩

/-- Python `s.startswith(pre)`. -/
def pyStartsWith (pre s : String) : Bool := pre.data.isPrefixOf s.data

/-- Split a character list on a separator character; Python
`str.split(sep)` for a one-character separator. -/
def splitOnCharL (sep : Char) : List Char → List (List Char)
  | [] => [[]]
  | c :: t =>
    match splitOnCharL sep t with
    | [] => if c == sep then [[], []] else [[c]]
    | h :: r => if c == sep then [] :: h :: r else (c :: h) :: r

/-- Python `s.split(sep)` for a one-character separator. -/
def pySplitChar (sep : Char) (s : String) : List String :=
  (splitOnCharL sep s.data).map (fun l => ⟨l⟩)

/-- Python `pat in s` (substring containment). The sources only use it with
non-empty patterns. -/
def containsSub (pat : List Char) : List Char → Bool
  | [] => pat.isEmpty
  | l@(_ :: t) => pat.isPrefixOf l || containsSub pat t

/-- One step of Python `str.replace(pat, rep)`: replace all non-overlapping
occurrences left to right.  `fuel` bounds the recursion; every call site
passes the length of the scanned list, which suffices because each step
consumes at least one character (the sources only use non-empty patterns). -/
def pyReplaceAux (pat rep : List Char) : Nat → List Char → List Char
  | _, [] => []
  | 0, l => l
  | fuel + 1, c :: t =>
    if pat.isPrefixOf (c :: t) then
      rep ++ pyReplaceAux pat rep fuel (t.drop (pat.length - 1))
    else
      c :: pyReplaceAux pat rep fuel t

/-- Python `s.replace(pat, rep)` for non-empty `pat`. -/
def pyReplace (s pat rep : String) : String :=
  ⟨pyReplaceAux pat.data rep.data s.data.length s.data⟩

/-- Does the string (as a list) have a non-whitespace character? -/
def hasNonWsL (l : List Char) : Bool := l.any (fun c => !c.isWhitespace)

/-- Does the string have a non-whitespace character? -/
def hasNonWs (s : String) : Bool := hasNonWsL s.data

/-- First-occurrence-kept duplicate removal, the semantics of
`pandas.DataFrame.drop_duplicates` and of `DataFrame.drop_duplicates(inplace=True)`. -/
def dedupFirstAux {α} [DecidableEq α] (seen : List α) : List α → List α
  | [] => []
  | a :: t => if a ∈ seen then dedupFirstAux seen t else a :: dedupFirstAux (a :: seen) t

/-- `drop_duplicates`: keep the first occurrence of each element. -/
def dedupFirst {α} [DecidableEq α] (l : List α) : List α := dedupFirstAux [] l

/-! ## KG Cleaner: embedding of src/clean_kg.py (clean_kg) -/

namespace CleanKg

/-- A row of the triples CSV as loaded by pandas: `Subject` and `Object`
may be missing (NaN). The `Predicate` column is never null in the data this
pipeline handles and is never inspected by any cleaning rule, so it is kept
as a plain string. -/
structure Row where
  subject : Option String
  predicate : String
  object : Option String
deriving DecidableEq, Repr

/-- `s.startswith` one of the placeholder alternatives, with the regex word
boundary of the pattern after the match: the next character (if any) is not
a word character.  This is `re.search` of the anchored alternation
`^(data not|none|...)\b`. -/
def startsWithBoundaryL (pat l : List Char) : Bool :=
  pat.isPrefixOf l &&
    (match l.drop pat.length with
     | [] => true
     | d :: _ => !isWordChar d)

/-- An occurrence of the pattern anywhere in the list, followed by a word
boundary: `re.search` of `(...)\b` for a literal alternative. -/
def occursWithBoundary (pat : List Char) : List Char → Bool
  | [] => false
  | l@(_ :: t) =>
    (pat.isPrefixOf l &&
      (match l.drop pat.length with
       | [] => true
       | d :: _ => !isWordChar d)) || occursWithBoundary pat t

/-- The alternatives of `placeholder_start_pattern` (step 2), in source
order. -/
def placeholderAlternatives : List String :=
  ["data not", "none", "unknown", "not found", "not given", "not available",
   "drug name not found", "not provided", "not", "name not given",
   "inadequate data", "insufficient data"]

/-- Case-insensitive match of `placeholder_start_pattern` anywhere
(`str.contains` with `re.search`; the pattern is anchored with `^`). -/
def placeholderB (s : String) : Bool :=
  placeholderAlternatives.any (fun p => startsWithBoundaryL p.data (pyLowerL s.data))

/-- The alternatives of `object_contains_pattern` (step 3), in source
order. -/
def objectNoiseAlternatives : List String :=
  ["unknown", "inadequate data", "insufficient data", "no colour", "no shape",
   "no warning", "no contraindication", "no data", "no information"]

/-- Case-insensitive containment of `object_contains_pattern` (step 3). -/
def noiseB (s : String) : Bool :=
  objectNoiseAlternatives.any (fun p => occursWithBoundary p.data (pyLowerL s.data))

/-- The `subject_flag_phrases` literals (step 4). -/
def subjectFlagPhrases : List String :=
  ["product name", "not stated", "invented name", "unreadable text"]

/-- Case-insensitive containment of one of `subject_flag_phrases`
(the phrases are `re.escape`d, so they match literally). -/
def flagB (s : String) : Bool :=
  subjectFlagPhrases.any (fun p => containsSub p.data (pyLowerL s.data))

/-- `str.contains(..., na=False)` semantics: a missing value never
matches. -/
def matchesOpt (f : String → Bool) : Option String → Bool
  | none => false
  | some s => f s

/-- Step 1 keep-predicate: drop rows with null `Subject` or `Object`. -/
def step1keep (r : Row) : Bool := r.subject.isSome && r.object.isSome

/-- Step 2 keep-predicate. -/
def step2keep (r : Row) : Bool :=
  !(matchesOpt placeholderB r.subject || matchesOpt placeholderB r.object)

/-- Step 3 keep-predicate. -/
def step3keep (r : Row) : Bool := !(matchesOpt noiseB r.object)

/-- Step 4 keep-predicate. -/
def step4keep (r : Row) : Bool := !(matchesOpt flagB r.subject)

/-- Step 5: `clean_specials`.
`re.sub(r"^[^A-Za-z0-9]+|[^A-Za-z0-9]+$", "", text.strip())`: strip
whitespace, then remove the maximal leading and trailing runs of characters
outside the ASCII class `[A-Za-z0-9]`. -/
def clean_specials (s : String) : String :=
  ⟨dropEdges (fun c => !c.isAlphanum) (pyStripL s.data)⟩

/-- Step 5 applied to a row (`clean_specials` is applied to the `Subject`
and `Object` columns; non-string (null) entries are returned unchanged). -/
def cleanRow (r : Row) : Row :=
  { r with subject := r.subject.map clean_specials,
           object := r.object.map clean_specials }

/-- The `target_values` junk tokens of step 7. -/
def junkTokens : List String := ["c", "ig", "na"]

/-- Step 7 keep-predicate: `astype(str).str.strip().str.lower()` not in
`target_values` (pandas renders a null as the string "nan"). -/
def step7keep (r : Row) : Bool :=
  !(junkTokens.contains (pyLower (pyStrip (r.object.getD "nan"))))

/-- The `clean_kg` rule pipeline of src/clean_kg.py, on the in-memory
table (file I/O aside): steps 1-4 filter rows, step 5 rewrites the string
columns, step 6 drops exact duplicates keeping first occurrences, step 7
filters junk objects. -/
def clean (l : List Row) : List Row :=
  (dedupFirst
    (((((l.filter step1keep).filter step2keep).filter step3keep).filter
        step4keep).map cleanRow)).filter step7keep

end CleanKg

/-! ## Triple Emitter: embedding of src/scripts/build_kg_csv.py -/

namespace BuildKg

/-- The predicate tags of `relationship_mappings`. -/
inductive Rel where
  | HAS_NAME
  | HAS_SIDE_EFFECT
  | HAS_ACTIVE_INGREDIENT
  | HAS_INACTIVE_INGREDIENT
  | HAS_CONTRAINDICATION
  | HAS_WARNING
  | HAS_STORAGE_INFO
  | HAS_DOSAGE_INFO
  | HAS_SHAPE
  | HAS_COLOUR
deriving DecidableEq, Repr

/-- A (Subject, Predicate, Object) triple. -/
structure Triple where
  subject : String
  predicate : Rel
  object : String
deriving DecidableEq, Repr

/-- `relationship_mappings`, in source (dict insertion) order. -/
def relationship_mappings : List (String × Rel) :=
  [("What is the name of the drug/medicine?", .HAS_NAME),
   ("List the side-effects found in the leaflet as a comma-separated list of names only.", .HAS_SIDE_EFFECT),
   ("List the active ingredient(s) found in the leaflet as a comma-separated list of names only.", .HAS_ACTIVE_INGREDIENT),
   ("List the inactive ingredients found in the leaflet as a comma-separated list of names only.", .HAS_INACTIVE_INGREDIENT),
   ("List the contraindications found in the leaflet as a comma-separated list of names only.", .HAS_CONTRAINDICATION),
   ("List the warnings and precautions found in the leaflet as a comma-separated list of names only.", .HAS_WARNING),
   ("Extract storage conditions into standardized format", .HAS_STORAGE_INFO),
   ("Extract categorized dosage information", .HAS_DOSAGE_INFO),
   ("Extract only the shape of the drug", .HAS_SHAPE),
   ("Extract only the color of the drug", .HAS_COLOUR)]

/-- `unit_mapping`, in source (dict insertion) order. -/
def unit_mapping : List (String × String) :=
  [("milligram", "mg"), ("gram", "g"), ("liter", "L"), ("litre", "L"),
   ("microgram", "mcg"), ("nanogram", "ng"), ("kilogram", "kg")]

/-- Case-insensitive prefix match: the first `pat.length` characters of `l`,
lower-cased, equal the (lower-case) pattern. -/
def ciPrefix (pat l : List Char) : Bool :=
  ((l.take pat.length).map Char.toLower) == pat

/-- The regex word boundary after a match of length `n` starting at the head
of `l`: the following character (if any) is not a word character. -/
def boundaryAfter (n : Nat) (l : List Char) : Bool :=
  match l.drop n with
  | [] => true
  | d :: _ => !isWordChar d

/-- One pass of `re.sub(rf"\b{long_unit}\b", short_unit, dosage,
flags=re.IGNORECASE)`: scan left to right tracking whether the previous
character of the original string is a word character (`prevW`), replace
every case-insensitive whole-word occurrence, and resume scanning after the
matched region.  `fuel` bounds the recursion; call sites pass the length of
the scanned list, which suffices because each step consumes at least one
character (unit names are non-empty). -/
def subWordAux (patLower rep : List Char) : Nat → Bool → List Char → List Char
  | _, _, [] => []
  | 0, _, l => l
  | fuel + 1, prevW, c :: t =>
    if !prevW && ciPrefix patLower (c :: t) && boundaryAfter patLower.length (c :: t) then
      rep ++ subWordAux patLower rep fuel
        (match ((c :: t).take patLower.length).getLast? with
         | some d => isWordChar d
         | none => prevW)
        (t.drop (patLower.length - 1))
    else
      c :: subWordAux patLower rep fuel (isWordChar c) t

/-- Is there a case-insensitive whole-word occurrence of the pattern
(scanning with previous-is-word-character state `prevW`)? -/
def hasWordOccCI (patLower : List Char) : Bool → List Char → Bool
  | _, [] => false
  | prevW, c :: t =>
    (!prevW && ciPrefix patLower (c :: t) && boundaryAfter patLower.length (c :: t)) ||
      hasWordOccCI patLower (isWordChar c) t

/-- `standardize_dosage`: apply the word-boundary-safe, case-insensitive
unit replacements of `unit_mapping` in order. -/
def standardize_dosage (dosage : String) : String :=
  unit_mapping.foldl
    (fun d p => ⟨subWordAux p.1.data p.2.data d.data.length false d.data⟩) dosage

/-- Decimal value of a run of ASCII digits (Python `int`). -/
def digitsToNat (l : List Char) : Nat :=
  l.foldl (fun a c => 10 * a + (c.toNat - '0'.toNat)) 0

/-- `re.search(r"(\d+)\s*mg", dosage)`: the match succeeds at the first
position where a (maximal) digit run, followed by optional whitespace, is
followed by the literal "mg"; the captured group is that digit run.
(A shorter, backtracked digit run can never succeed, because the character
after it would be a digit, which is neither whitespace nor 'm'.) -/
def searchNumMgL : List Char → Option Nat
  | [] => none
  | c :: t =>
    if c.isDigit then
      let digits := (c :: t).takeWhile Char.isDigit
      let rest := ((c :: t).dropWhile Char.isDigit).dropWhile Char.isWhitespace
      if ['m', 'g'].isPrefixOf rest then some (digitsToNat digits)
      else searchNumMgL t
    else searchNumMgL t

/-- `re.search(r"(\d+)\s*mg", dosage)` with the captured integer. -/
def searchNumMg (s : String) : Option Nat := searchNumMgL s.data

/-- Python `min` over a non-empty list (0 for the empty list, which the
source never reaches). -/
def listMin : List Nat → Nat
  | [] => 0
  | v :: t => t.foldl Nat.min v

/-- Python `max` over a non-empty list (0 for the empty list, which the
source never reaches). -/
def listMax : List Nat → Nat
  | [] => 0
  | v :: t => t.foldl Nat.max v

/-- The fixed marker phrase of the dosage branch. -/
def prescribedMarker : String := "Dosage to be prescribed by doctor"

/-- The object string f"{n} mg". -/
def fmtMg (n : Nat) : String := toString n ++ " mg"

/-- One iteration of the `extract_dosage_values` loop: standardize the
line; if the mg-regex captures an integer, append it, otherwise record
whether the (standardized) line contains the marker phrase. -/
def dosageStep (acc : List Nat × Bool) (dosage : String) : List Nat × Bool :=
  let d := standardize_dosage dosage
  match searchNumMg d with
  | some n => (acc.1 ++ [n], acc.2)
  | none => (acc.1, acc.2 || containsSub prescribedMarker.data d.data)

/-- `extract_dosage_values`. -/
def extract_dosage_values (dosage_list : List String) : List String :=
  let r := dosage_list.foldl dosageStep ([], false)
  match r.1 with
  | [] => if r.2 then [prescribedMarker] else []
  | [v] => [fmtMg v]
  | v :: w :: rest =>
    [fmtMg (listMin (v :: w :: rest)), fmtMg (listMax (v :: w :: rest))]

/-- Model of `fuzzywuzzy.process.extractOne(query, choices)` for an
abstract similarity scorer: the best-scoring choice (the first one among
ties, as Python's `max` returns the first maximum), together with its
score, or `none` when the choice list is empty (the library returns
`None` in that case, and unpacking it raises a `TypeError`). -/
def extractOne (scorer : String → String → Nat) (query : String) :
    List String → Option (String × Nat)
  | [] => none
  | c :: cs =>
    match extractOne scorer query cs with
    | none => some (c, scorer query c)
    | some (m, s) => if scorer query c ≥ s then some (c, scorer query c) else some (m, s)

/-- `fuzzy_match_entity`: replace the entity by the best vocabulary match
when its score is strictly above 85, keep the entity otherwise.  `none`
models the `TypeError` raised when `process.extractOne` returns `None`
(empty vocabulary). -/
def fuzzy_match_entity (scorer : String → String → Nat)
    (medical_terms : List String) (entity : String) : Option String :=
  match extractOne scorer entity medical_terms with
  | none => none
  | some (m, s) => some (if 85 < s then m else entity)

/-- The external collaborators and data of the main loop: the SciSpaCy
normalizer (`normalize_medical_entity`), the NLTK lemmatizer
(`lemmatize_entity`), the fuzzywuzzy scorer, and the curated
`medical_terms` vocabulary. -/
structure Ctx where
  normalize : String → String
  lemmatize : String → String
  scorer : String → String → Nat
  medical_terms : List String

/-- The mutable state threaded through the `for i, line in enumerate(lines)`
loop: `current_pdf` (unassigned before the first block marker),
`drug_name_mapping`, and the accumulated `data` rows. -/
structure LoopState where
  current_pdf : Option String
  mapping : List (String × String)
  data : List Triple
deriving DecidableEq, Repr

/-- Python dict assignment `m[k] = v`. -/
def assocSet (k v : String) (m : List (String × String)) : List (String × String) :=
  (k, v) :: m.filter (fun p => p.1 ≠ k)

/-- Python `m.get(k)`: the value stored for `k`, if any. -/
def assocGet (k : String) (m : List (String × String)) : Option String :=
  (m.find? (fun p => p.1 = k)).map (fun p => p.2)

/-- `next((l.strip() for l in lines[i + 1:] if l.startswith("A: ")), None)`:
the first line after index `i` that starts with "A: ", stripped. -/
def findAnswer (lines : List String) (i : Nat) : Option String :=
  ((lines.drop (i + 1)).find? (fun l => pyStartsWith "A: " l)).map pyStrip

/-- `answer_line.replace("A: ", "").strip()`. -/
def answerOf (al : String) : String := pyStrip (pyReplace al "A: " "")

/-- The dosage sub-list scan: from the lines after the question line,
collect each stripped line starting with "- " (with all "- " occurrences
removed and the result stripped), stopping at the first stripped line
starting with "Q: "; other lines are skipped. -/
def collectDosageLines : List String → List String
  | [] => []
  | l :: t =>
    let s := pyStrip l
    if pyStartsWith "- " s then pyStrip (pyReplace s "- " "") :: collectDosageLines t
    else if pyStartsWith "Q: " s then []
    else collectDosageLines t

/-- Normalize, lemmatize and fuzzy-correct each term of a list predicate's
answer; `none` models the crash of `fuzzy_match_entity` on an empty
vocabulary. -/
def fuzzyAll (ctx : Ctx) : List String → Option (List String)
  | [] => some []
  | v :: t =>
    match fuzzy_match_entity ctx.scorer ctx.medical_terms (ctx.lemmatize (ctx.normalize v)) with
    | none => none
    | some m =>
      match fuzzyAll ctx t with
      | none => none
      | some ms => some (m :: ms)

/-- Python `answer.split(",")`. -/
def splitComma (s : String) : List String := pySplitChar ',' s

/-- The object strings produced for one matched question, per relation:
the dosage branch, the storage branch, the colour branch, the five list
branches (comma split plus normalization), and the verbatim default
(HAS_NAME and HAS_SHAPE). -/
def objectsFor (ctx : Ctx) (lines : List String) (i : Nat) (rel : Rel)
    (answer : String) : Option (List String) :=
  match rel with
  | .HAS_DOSAGE_INFO =>
    some (extract_dosage_values (collectDosageLines (lines.drop (i + 1))))
  | .HAS_STORAGE_INFO => some [answer]
  | .HAS_COLOUR => some ((splitComma answer).map pyStrip)
  | .HAS_SIDE_EFFECT | .HAS_ACTIVE_INGREDIENT | .HAS_INACTIVE_INGREDIENT
  | .HAS_CONTRAINDICATION | .HAS_WARNING =>
    if answer.data.any (fun c => c == ',') then
      fuzzyAll ctx ((splitComma answer).map pyStrip)
    else fuzzyAll ctx [answer]
  | _ => some [answer]

/-- The handler of one `(question, relation)` pair of the relationship
loop for the current line: on a match with an existing answer line, read
`current_pdf` (a `none` result models the `NameError` when no block marker
has been seen), resolve the subject, and append one row per object. -/
def relStep (ctx : Ctx) (lines : List String) (i : Nat) (line : String)
    (st : LoopState) (qr : String × Rel) : Option LoopState :=
  if pyStartsWith ("Q: " ++ qr.1) line then
    match findAnswer lines i with
    | none => some st
    | some al =>
      let answer := answerOf al
      match st.current_pdf with
      | none => none
      | some p =>
        let subject := (assocGet p st.mapping).getD p
        match objectsFor ctx lines i qr.2 answer with
        | none => none
        | some objs =>
          some { st with data :=
            st.data ++ objs.map (fun o => ⟨subject, qr.2, o⟩) }
  else some st

/-- `for question, relation in relationship_mappings.items(): ...`. -/
def relLoop (ctx : Ctx) (lines : List String) (i : Nat) (line : String) :
    LoopState → List (String × Rel) → Option LoopState
  | st, [] => some st
  | st, qr :: rest =>
    match relStep ctx lines i line st qr with
    | none => none
    | some st2 => relLoop ctx lines i line st2 rest

/-- The `Q: What is the name of the drug/medicine?` handler: look up the
next answer line anywhere below, and store the drug name for `current_pdf`
(a `none` result models the `NameError` when no block marker has been
seen). -/
def nameStep (lines : List String) (i : Nat) (line : String)
    (st : LoopState) : Option LoopState :=
  if pyStartsWith "Q: What is the name of the drug/medicine?" line then
    match findAnswer lines i with
    | none => some st
    | some al =>
      match st.current_pdf with
      | none => none
      | some p => some { st with mapping := assocSet p (answerOf al) st.mapping }
  else some st

/-- The body of `for i, line in enumerate(lines)`: strip the line, handle
the "Drug Leaflet:" block marker, the drug-name question, then the
relationship loop. -/
def processLine (ctx : Ctx) (lines : List String) (i : Nat)
    (st : LoopState) : Option LoopState :=
  let line := pyStrip (lines.getD i "")
  let st1 :=
    if pyStartsWith "Drug Leaflet:" line then
      { st with current_pdf := some (pyStrip ((pySplitChar ':' line).getD 1 "")) }
    else st
  match nameStep lines i line st1 with
  | none => none
  | some st2 => relLoop ctx lines i line st2 relationship_mappings

/-- Run the loop body over a list of line indices. -/
def runAll (ctx : Ctx) (lines : List String) :
    LoopState → List Nat → Option LoopState
  | st, [] => some st
  | st, i :: is =>
    match processLine ctx lines i st with
    | none => none
    | some st2 => runAll ctx lines st2 is

/-- The whole extraction: run the loop over every line, then
`df.drop_duplicates(inplace=True)` on the collected rows.  `none` models a
crash of the script (`NameError` on an unset `current_pdf`, or the
`TypeError` of `fuzzy_match_entity` on an empty vocabulary). -/
def buildKG (ctx : Ctx) (lines : List String) : Option (List Triple) :=
  match runAll ctx lines ⟨none, [], []⟩ (List.range lines.length) with
  | none => none
  | some st => some (dedupFirst st.data)

end BuildKg

/-! ## LLM Refinement Client: embeddings of the retry loops of
src/scripts/extract_information.py and src/scripts/postprocess_kg.py -/

namespace ExtractInfo

/-- Outcome of one `requests.post` attempt: a successful response (whose
chat-completion content may be absent, `.get(..., None)`), a
`requests.exceptions.Timeout`, or another
`requests.exceptions.RequestException`. -/
inductive TransportOutcome where
  | success (content : Option String)
  | timeout
  | requestError
deriving DecidableEq, Repr

/-- `query_model` of extract_information.py as a function of the
per-attempt transport outcomes: attempt `i`, then `i+1`, ..., for
`retries` attempts; a success returns the (possibly absent) content; a
caught transport error falls through to the next attempt; exhaustion
returns `None`.  (The `time.sleep` rate-limit and retry delays have no
observable value and are not modelled.) -/
def query_model (outcomes : Nat → TransportOutcome) : Nat → Nat → Option String
  | 0, _ => none
  | fuel + 1, i =>
    match outcomes i with
    | .success c => c
    | .timeout => query_model outcomes fuel (i + 1)
    | .requestError => query_model outcomes fuel (i + 1)

/-- `extract_temperature_info`: refine the storage text via `query_model`;
a falsy result (`None` or the empty string) falls back to the literal
"No special storage", otherwise the stripped response is returned.  The
`storage_text` context only feeds the request body. -/
def extract_temperature_info (storage_text : String)
    (outcomes : Nat → TransportOutcome) (retries : Nat) : String :=
  match query_model outcomes retries 0 with
  | none => "No special storage"
  | some s => if s = "" then "No special storage" else pyStrip s

/-- `extract_dosage_info`: a `None` response gives `[]`; an empty-string
response gives `[]`; otherwise the response is split on newlines. -/
def extract_dosage_info (dosage_text : String)
    (outcomes : Nat → TransportOutcome) (retries : Nat) : List String :=
  match query_model outcomes retries 0 with
  | none => []
  | some s => if s = "" then [] else pySplitChar '\n' s

end ExtractInfo

namespace PostprocessKg

/-- Outcome of one `requests.post` attempt of postprocess_kg.py's
`query_model`: a response with its content string, or a caught
`requests.exceptions.RequestException`. -/
inductive PPOutcome where
  | success (content : String)
  | requestError
deriving DecidableEq, Repr

/-- `query_model` of postprocess_kg.py: up to `retries` attempts; a
success returns the stripped content; after exhausting the retries the
ORIGINAL `context` string is returned.  (The `entity_cache` write and the
log lines are side effects with no bearing on the returned value.) -/
def query_model (context : String) (outcomes : Nat → PPOutcome) :
    Nat → Nat → String
  | 0, _ => context
  | fuel + 1, i =>
    match outcomes i with
    | .success c => pyStrip c
    | .requestError => query_model context outcomes fuel (i + 1)

end PostprocessKg

/-! ## Specification-side definitions and concrete fixtures -/

namespace BuildKg

/-- The integers captured across the dosage lines: for each line, the
leading integer before "mg" after unit standardization, when present. -/
def capturedInts (l : List String) : List Nat :=
  l.filterMap (fun d => searchNumMg (standardize_dosage d))

/-- Specification-side restatement of the dosage output rule (section 4.2
of the spec): if at least two integers are captured, exactly the two
objects "{min} mg" and "{max} mg"; if exactly one, the single object
"{value} mg"; if none but some (standardized) line contains the marker
phrase, the marker phrase; otherwise nothing.  This definition follows the
spec's words and is proved equal to `extract_dosage_values`. -/
def dosageSpecRule (l : List String) : List String :=
  match capturedInts l with
  | [] =>
    if l.any (fun d => containsSub prescribedMarker.data (standardize_dosage d).data)
    then [prescribedMarker] else []
  | [v] => [fmtMg v]
  | v :: w :: rest =>
    [fmtMg (listMin (v :: w :: rest)), fmtMg (listMax (v :: w :: rest))]

/-- The relations whose object is emitted verbatim from the answer or from
the dosage extraction (everything except the comma-splitting colour and
list branches). -/
def verbatimRel (r : Rel) : Bool :=
  match r with
  | .HAS_NAME | .HAS_STORAGE_INFO | .HAS_SHAPE | .HAS_DOSAGE_INFO => true
  | _ => false

/-- A concrete context with trivial NLP collaborators and a one-term
vocabulary, for concrete runs of the emitter. -/
def ctx0 : Ctx := ⟨id, id, fun _ _ => 0, ["term"]⟩

/-- A concrete context whose medical-terms vocabulary is empty. -/
def ctxEmptyVocab : Ctx := ⟨id, id, fun _ _ => 0, []⟩

/-- Transcript: a block marker with an empty source identifier followed by
a colour question whose answer has a trailing comma. -/
def linesEmptyObj : List String :=
  ["Drug Leaflet:", "Q: Extract only the color of the drug", "A: red,"]

/-- Transcript: one block in which a shape question precedes the drug-name
question. -/
def linesShapeFirst : List String :=
  ["Drug Leaflet: A.pdf", "Q: Extract only the shape of the drug", "A: round",
   "Q: What is the name of the drug/medicine?", "A: Aspirin",
   "Q: Extract only the color of the drug", "A: red"]

/-- Transcript: block A's shape question has no answer line inside block A,
but block B below contains answer lines. -/
def linesCrossBlock : List String :=
  ["Drug Leaflet: A.pdf", "Q: What is the name of the drug/medicine?",
   "A: Aspirin", "Q: Extract only the shape of the drug",
   "Drug Leaflet: B.pdf", "Q: What is the name of the drug/medicine?",
   "A: Bspirin"]

/-- Transcript: one storage question with an answer. -/
def linesStorage : List String :=
  ["Drug Leaflet: A.pdf",
   "Q: Extract storage conditions into standardized format", "A: Keep cool"]

/-- Transcript: a warnings (list-predicate) question with an answer. -/
def linesWarning : List String :=
  ["Drug Leaflet: A.pdf",
   "Q: List the warnings and precautions found in the leaflet as a comma-separated list of names only.",
   "A: dizziness"]

/-- Two lines that are neither block markers nor drug-name questions: a
colour question and its answer. -/
def linesColourOnly : List String :=
  ["", "Q: Extract only the color of the drug", "A: red"]

/-- Transcript: a block with a shape question and no answer line below it. -/
def linesNoAnswer : List String :=
  ["Drug Leaflet: A.pdf", "Q: Extract only the shape of the drug"]

/-- The output of the emitter on `linesStorage`. -/
def outStorage : List Triple := [⟨"A.pdf", .HAS_STORAGE_INFO, "Keep cool"⟩]

/-- A loop state in which the current source is "A.pdf" and the drug name
"Aspirin" has been resolved for it. -/
def stResolved : LoopState := ⟨some "A.pdf", [("A.pdf", "Aspirin")], []⟩

/-- `stResolved` after processing the colour question of
`linesColourOnly`. -/
def stResolvedOut : LoopState :=
  ⟨some "A.pdf", [("A.pdf", "Aspirin")], [⟨"Aspirin", .HAS_COLOUR, "red"⟩]⟩

end BuildKg

namespace CleanKg

/-- A table whose only row has subject "-not-": rule 5 strips the hyphens,
after which the subject starts with the placeholder word "not". -/
def tblNotRow : List Row := [⟨some "-not-", "P", some "headache"⟩]

/-- A table whose strings are untouched by `clean_specials`. -/
def tblFixed : List Row := [⟨some "Paracetamol", "HAS_SIDE_EFFECT", some "headache"⟩]

end CleanKg

/-! ## Helper lemmas -/

theorem listAnyCongr {α} {p q : α → Bool} :
    ∀ {l : List α}, (∀ a ∈ l, p a = q a) → l.any p = l.any q := by
  intro l h
  induction l with
  | nil => rfl
  | cons a t ih =>
    simp only [List.any_cons, h a (List.mem_cons_self a t),
      ih (fun b hb => h b (List.mem_cons_of_mem a hb))]

theorem listMapSelf {α} {f : α → α} :
    ∀ {l : List α}, (∀ a ∈ l, f a = a) → l.map f = l := by
  intro l h
  induction l with
  | nil => rfl
  | cons a t ih =>
    simp only [List.map_cons, h a (List.mem_cons_self a t),
      ih (fun b hb => h b (List.mem_cons_of_mem a hb))]

theorem listFilterSelf {α} {p : α → Bool} :
    ∀ {l : List α}, (∀ a ∈ l, p a = true) → l.filter p = l := by
  intro l h
  induction l with
  | nil => rfl
  | cons a t ih =>
    rw [List.filter_cons, if_pos (h a (List.mem_cons_self a t)),
      ih (fun b hb => h b (List.mem_cons_of_mem a hb))]

theorem mem_of_mem_dedupFirstAux {α} [DecidableEq α] :
    ∀ (l seen : List α) (x : α), x ∈ dedupFirstAux seen l → x ∈ l := by
  intro l
  induction l with
  | nil => intro seen x h; simp [dedupFirstAux] at h
  | cons a t ih =>
    intro seen x h
    unfold dedupFirstAux at h
    by_cases ha : a ∈ seen
    · rw [if_pos ha] at h
      exact List.mem_cons_of_mem a (ih seen x h)
    · rw [if_neg ha] at h
      rcases List.mem_cons.mp h with rfl | h2
      · exact List.mem_cons_self x t
      · exact List.mem_cons_of_mem a (ih (a :: seen) x h2)

theorem dedupFirstAux_nodup {α} [DecidableEq α] :
    ∀ (l seen : List α),
      (dedupFirstAux seen l).Nodup ∧ ∀ x ∈ dedupFirstAux seen l, x ∉ seen := by
  intro l
  induction l with
  | nil =>
    intro seen
    refine ⟨by simp [dedupFirstAux], ?_⟩
    intro x hx
    simp [dedupFirstAux] at hx
  | cons a t ih =>
    intro seen
    unfold dedupFirstAux
    by_cases ha : a ∈ seen
    · rw [if_pos ha]; exact ih seen
    · rw [if_neg ha]
      obtain ⟨hnd, hns⟩ := ih (a :: seen)
      constructor
      · refine List.Nodup.cons ?_ hnd
        intro hmem
        exact (hns a hmem) (List.mem_cons_self a seen)
      · intro x hx
        rcases List.mem_cons.mp hx with rfl | h2
        · exact ha
        · intro hxs
          exact (hns x h2) (List.mem_cons_of_mem a hxs)

theorem dedupFirstAux_eq_self {α} [DecidableEq α] :
    ∀ (l seen : List α), l.Nodup → (∀ x ∈ l, x ∉ seen) → dedupFirstAux seen l = l := by
  intro l
  induction l with
  | nil => intro seen _ _; rfl
  | cons a t ih =>
    intro seen hnd hsn
    unfold dedupFirstAux
    rw [if_neg (hsn a (List.mem_cons_self a t))]
    obtain ⟨hat, hndt⟩ := List.nodup_cons.mp hnd
    rw [ih (a :: seen) hndt]
    intro x hx
    intro hmem
    rcases List.mem_cons.mp hmem with rfl | h2
    · exact hat hx
    · exact (hsn x (List.mem_cons_of_mem a hx)) h2

theorem dropWhile_head?_false {α} {p : α → Bool} :
    ∀ {l : List α} {c : α}, (l.dropWhile p).head? = some c → p c = false := by
  intro l
  induction l with
  | nil => intro c h; simp [List.dropWhile] at h
  | cons a t ih =>
    intro c h
    rw [List.dropWhile_cons] at h
    by_cases hp : p a = true
    · rw [if_pos hp] at h; exact ih h
    · rw [if_neg hp] at h
      have : a = c := by simpa using h
      subst this
      exact Bool.eq_false_iff.mpr hp

theorem mem_dropWhile_of_not {α} {p : α → Bool} :
    ∀ {l : List α} {c : α}, c ∈ l → p c = false → c ∈ l.dropWhile p := by
  intro l
  induction l with
  | nil => intro c h _; cases h
  | cons a t ih =>
    intro c hc hpc
    rw [List.dropWhile_cons]
    by_cases hp : p a = true
    · rw [if_pos hp]
      rcases List.mem_cons.mp hc with rfl | h2
      · rw [hpc] at hp; cases hp
      · exact ih h2 hpc
    · rw [if_neg hp]; exact hc

theorem hasNonWsL_pyStripL {l : List Char} (h : hasNonWsL l = true) :
    hasNonWsL (pyStripL l) = true := by
  rw [hasNonWsL, List.any_eq_true] at h ⊢
  obtain ⟨c, hc, hcw⟩ := h
  have hcw2 : c.isWhitespace = false := by simpa using hcw
  refine ⟨c, ?_, hcw⟩
  unfold pyStripL dropEdges
  rw [List.mem_reverse]
  exact mem_dropWhile_of_not (List.mem_reverse.mpr (mem_dropWhile_of_not hc hcw2)) hcw2

theorem ne_nil_of_hasNonWsL {l : List Char} (h : hasNonWsL l = true) : l ≠ [] := by
  rw [hasNonWsL, List.any_eq_true] at h
  obtain ⟨c, hc, _⟩ := h
  exact List.ne_nil_of_mem hc

theorem pyStripL_getLast_not_ws {l : List Char} {c : Char}
    (h : (pyStripL l).getLast? = some c) : c.isWhitespace = false := by
  unfold pyStripL dropEdges at h
  rw [List.getLast?_reverse] at h
  exact dropWhile_head?_false h

theorem hasNonWs_pyStrip_ne {s : String} (h : hasNonWs s = true) : pyStrip s ≠ "" := by
  intro he
  have h2 : hasNonWsL (pyStripL s.data) = true := hasNonWsL_pyStripL h
  have h3 : pyStripL s.data = [] := by
    have hd := congrArg String.data he
    simpa [pyStrip] using hd
  rw [h3] at h2
  simp [hasNonWsL] at h2


theorem replaceA_keeps_nonws :
    ∀ (fuel : Nat) (l : List Char) (c : Char),
      l.getLast? = some c → c.isWhitespace = false →
      hasNonWsL (pyReplaceAux ['A', ':', ' '] [] fuel l) = true := by
  intro fuel
  induction fuel with
  | zero =>
    intro l c hl hc
    cases l with
    | nil => cases hl
    | cons x t =>
      show hasNonWsL (x :: t) = true
      rw [hasNonWsL, List.any_eq_true]
      exact ⟨c, List.mem_of_mem_getLast? hl, by simp [hc]⟩
  | succ fuel ih =>
    intro l c hl hc
    cases l with
    | nil => cases hl
    | cons x t =>
      by_cases hpre : (['A', ':', ' '].isPrefixOf (x :: t)) = true
      · obtain ⟨u, hu⟩ := List.isPrefixOf_iff_prefix.mp hpre
        simp only [List.cons_append, List.nil_append] at hu
        injection hu with hx ht
        subst hx
        subst ht
        rw [pyReplaceAux, if_pos hpre]
        simp only [List.nil_append]
        have hdrop : (':' :: ' ' :: u).drop (['A', ':', ' '].length - 1) = u := rfl
        rw [hdrop]
        cases u with
        | nil =>
          exfalso
          rw [show (['A', ':', ' '] : List Char).getLast? = some ' ' from rfl] at hl
          injection hl with hl2
          rw [← hl2] at hc
          exact absurd hc (by decide)
        | cons u0 u1 =>
          apply ih (u0 :: u1) c ?_ hc
          rw [List.getLast?_cons_cons, List.getLast?_cons_cons,
            List.getLast?_cons_cons] at hl
          exact hl
      · rw [pyReplaceAux, if_neg hpre]
        rw [hasNonWsL, List.any_cons]
        cases t with
        | nil =>
          have : x = c := by simpa [List.getLast?] using hl
          subst this
          simp [hc]
        | cons t0 t1 =>
          rw [List.getLast?_cons_cons] at hl
          have hrec := ih (t0 :: t1) c hl hc
          rw [hasNonWsL] at hrec
          rw [hrec]
          simp

theorem findAnswer_spec {lines : List String} {i : Nat} {al : String}
    (h : BuildKg.findAnswer lines i = some al) :
    ∃ raw, pyStartsWith "A: " raw = true ∧ al = pyStrip raw := by
  unfold BuildKg.findAnswer at h
  cases hf : (lines.drop (i + 1)).find? (fun l => pyStartsWith "A: " l) with
  | none => rw [hf] at h; cases h
  | some raw =>
    rw [hf] at h
    simp only [Option.map_some', Option.some.injEq] at h
    exact ⟨raw, List.find?_some hf, h.symm⟩

theorem answerOf_hasNonWs {raw : String} (h : pyStartsWith "A: " raw = true) :
    hasNonWs (BuildKg.answerOf (pyStrip raw)) = true := by
  obtain ⟨u, hu⟩ := List.isPrefixOf_iff_prefix.mp h
  have hraw : raw.data = 'A' :: ':' :: ' ' :: u := by
    rw [← hu]; rfl
  have h1 : hasNonWsL raw.data = true := by
    rw [hraw, hasNonWsL, List.any_cons]
    simp
  have h2 : hasNonWsL (pyStripL raw.data) = true := hasNonWsL_pyStripL h1
  have h3 : pyStripL raw.data ≠ [] := ne_nil_of_hasNonWsL h2
  obtain ⟨c, hc⟩ : ∃ c, (pyStripL raw.data).getLast? = some c := by
    cases hg : (pyStripL raw.data).getLast? with
    | none => exact absurd (List.getLast?_eq_none_iff.mp hg) h3
    | some c => exact ⟨c, rfl⟩
  have h5 : c.isWhitespace = false := pyStripL_getLast_not_ws hc
  have h6 := replaceA_keeps_nonws (pyStripL raw.data).length (pyStripL raw.data) c hc h5
  show hasNonWsL (pyStripL (pyReplaceAux ['A', ':', ' '] [] (pyStripL raw.data).length (pyStripL raw.data))) = true
  exact hasNonWsL_pyStripL h6

theorem answer_object_ok {lines : List String} {i : Nat} {al : String}
    (h : BuildKg.findAnswer lines i = some al) :
    hasNonWs (BuildKg.answerOf al) = true := by
  obtain ⟨raw, hraw, hal⟩ := findAnswer_spec h
  rw [hal]
  exact answerOf_hasNonWs hraw

theorem fmtMg_hasNonWs (n : Nat) : hasNonWs (BuildKg.fmtMg n) = true := by
  rw [BuildKg.fmtMg, hasNonWs, hasNonWsL, String.data_append, List.any_append]
  have : (" mg" : String).data.any (fun c => !c.isWhitespace) = true := by decide
  rw [this, Bool.or_true]

theorem extract_dosage_values_nonws {l : List String} {x : String}
    (hx : x ∈ BuildKg.extract_dosage_values l) : hasNonWs x = true := by
  simp only [BuildKg.extract_dosage_values] at hx
  split at hx
  · split at hx
    · have hxm : x = BuildKg.prescribedMarker := by simpa using hx
      subst hxm
      decide
    · simp at hx
  · rename_i v heq
    have hx2 : x = BuildKg.fmtMg v := by simpa using hx
    rw [hx2]
    exact fmtMg_hasNonWs v
  · rename_i v w rest heq
    have hx2 : x = BuildKg.fmtMg (BuildKg.listMin (v :: w :: rest)) ∨
        x = BuildKg.fmtMg (BuildKg.listMax (v :: w :: rest)) := by simpa using hx
    rcases hx2 with h | h <;> rw [h] <;> exact fmtMg_hasNonWs _

theorem dosage_fold (l : List String) (acc : List Nat) (flag : Bool) :
    l.foldl BuildKg.dosageStep (acc, flag) =
      (acc ++ BuildKg.capturedInts l,
       flag || l.any (fun d =>
         (BuildKg.searchNumMg (BuildKg.standardize_dosage d)).isNone &&
           containsSub BuildKg.prescribedMarker.data (BuildKg.standardize_dosage d).data)) := by
  induction l generalizing acc flag with
  | nil => simp [BuildKg.capturedInts]
  | cons d t ih =>
    cases h : BuildKg.searchNumMg (BuildKg.standardize_dosage d) with
    | none =>
      simp only [List.foldl_cons, BuildKg.dosageStep, h, BuildKg.capturedInts,
        List.filterMap_cons, List.any_cons, Option.isNone_none, Bool.true_and,
        ih, Bool.or_assoc]
    | some n =>
      simp only [List.foldl_cons, BuildKg.dosageStep, h, BuildKg.capturedInts,
        List.filterMap_cons, List.any_cons, Option.isNone_some, Bool.false_and,
        Bool.false_or, ih, List.append_assoc, List.singleton_append]

theorem extract_eq_spec (l : List String) :
    BuildKg.extract_dosage_values l = BuildKg.dosageSpecRule l := by
  simp only [BuildKg.extract_dosage_values, dosage_fold l [] false, List.nil_append,
    Bool.false_or, BuildKg.dosageSpecRule]
  cases hc : BuildKg.capturedInts l with
  | nil =>
    have hall : ∀ d ∈ l, BuildKg.searchNumMg (BuildKg.standardize_dosage d) = none := by
      intro d hd
      exact List.filterMap_eq_nil_iff.mp hc d hd
    have hany : (l.any fun d =>
        (BuildKg.searchNumMg (BuildKg.standardize_dosage d)).isNone &&
          containsSub BuildKg.prescribedMarker.data (BuildKg.standardize_dosage d).data) =
        (l.any fun d =>
          containsSub BuildKg.prescribedMarker.data (BuildKg.standardize_dosage d).data) := by
      apply listAnyCongr
      intro d hd
      rw [hall d hd]
      simp
    simp only [hany]
  | cons v t =>
    cases t <;> rfl

theorem subWordAux_id_of_no_occ (patLower rep : List Char) :
    ∀ (l : List Char) (fuel : Nat) (prevW : Bool),
      BuildKg.hasWordOccCI patLower prevW l = false →
      BuildKg.subWordAux patLower rep fuel prevW l = l := by
  intro l
  induction l with
  | nil =>
    intro fuel prevW _
    cases fuel <;> rfl
  | cons c t ih =>
    intro fuel prevW h
    rw [BuildKg.hasWordOccCI, Bool.or_eq_false_iff] at h
    obtain ⟨hcond, hrec⟩ := h
    cases fuel with
    | zero => rfl
    | succ fuel =>
      rw [BuildKg.subWordAux, if_neg (by rw [hcond]; exact Bool.false_ne_true)]
      rw [ih fuel (isWordChar c) hrec]

theorem foldl_subst_id :
    ∀ (units : List (String × String)) (s : String),
      (∀ p ∈ units, BuildKg.hasWordOccCI p.1.data false s.data = false) →
      units.foldl
        (fun d p => ⟨BuildKg.subWordAux p.1.data p.2.data d.data.length false d.data⟩) s = s := by
  intro units
  induction units with
  | nil => intro s _; rfl
  | cons u t ih =>
    intro s h
    rw [List.foldl_cons]
    have e : (⟨BuildKg.subWordAux u.1.data u.2.data s.data.length false s.data⟩ : String) = s := by
      rw [subWordAux_id_of_no_occ u.1.data u.2.data s.data s.data.length false
        (h u (List.mem_cons_self u t))]
    rw [e]
    exact ih s (fun p hp => h p (List.mem_cons_of_mem u hp))

theorem standardize_dosage_id {s : String}
    (h : ∀ p ∈ BuildKg.unit_mapping, BuildKg.hasWordOccCI p.1.data false s.data = false) :
    BuildKg.standardize_dosage s = s :=
  foldl_subst_id BuildKg.unit_mapping s h

theorem dropEdges_decomp (p : Char → Bool) (t : List Char) :
    ∃ pre post,
      t = pre ++ dropEdges p t ++ post ∧
      (∀ c ∈ pre, p c = true) ∧ (∀ c ∈ post, p c = true) ∧
      (∀ c, (dropEdges p t).head? = some c → p c = false) ∧
      (∀ c, (dropEdges p t).getLast? = some c → p c = false) := by
  have hsplit : t.dropWhile p =
      ((t.dropWhile p).reverse.dropWhile p).reverse ++
        ((t.dropWhile p).reverse.takeWhile p).reverse := by
    have h1 := List.takeWhile_append_dropWhile (p := p) (l := (t.dropWhile p).reverse)
    have h2 := congrArg List.reverse h1
    rw [List.reverse_append, List.reverse_reverse] at h2
    exact h2.symm
  refine ⟨t.takeWhile p, ((t.dropWhile p).reverse.takeWhile p).reverse, ?_, ?_, ?_, ?_, ?_⟩
  · unfold dropEdges
    conv_lhs => rw [← List.takeWhile_append_dropWhile (p := p) (l := t)]
    rw [List.append_assoc, ← hsplit]
  · intro c hc
    exact List.mem_takeWhile_imp hc
  · intro c hc
    exact List.mem_takeWhile_imp (List.mem_reverse.mp hc)
  · intro c hc
    unfold dropEdges at hc
    cases hres : ((t.dropWhile p).reverse.dropWhile p).reverse with
    | nil => rw [hres] at hc; cases hc
    | cons a r =>
      rw [hres] at hc
      have hac : a = c := by simpa using hc
      subst hac
      have hl1 : (t.dropWhile p).head? = some a := by
        rw [hsplit, hres]
        rfl
      exact dropWhile_head?_false hl1
  · intro c hc
    unfold dropEdges at hc
    rw [List.getLast?_reverse] at hc
    exact dropWhile_head?_false hc

theorem memF_sub {X : List CleanKg.Row} {r : CleanKg.Row}
    (h : r ∈ (((X.filter CleanKg.step1keep).filter CleanKg.step2keep).filter
      CleanKg.step3keep).filter CleanKg.step4keep) : r ∈ X :=
  (List.mem_filter.mp (List.mem_filter.mp (List.mem_filter.mp
    (List.mem_filter.mp h).1).1).1).1

theorem clean_eq_self_of (Y : List CleanKg.Row)
    (h1 : ∀ r ∈ Y, CleanKg.step1keep r = true)
    (h2 : ∀ r ∈ Y, CleanKg.step2keep r = true)
    (h3 : ∀ r ∈ Y, CleanKg.step3keep r = true)
    (h4 : ∀ r ∈ Y, CleanKg.step4keep r = true)
    (h5 : ∀ r ∈ Y, CleanKg.cleanRow r = r)
    (h6 : Y.Nodup)
    (h7 : ∀ r ∈ Y, CleanKg.step7keep r = true) : CleanKg.clean Y = Y := by
  unfold CleanKg.clean
  rw [listFilterSelf h1, listFilterSelf h2, listFilterSelf h3, listFilterSelf h4,
    listMapSelf h5]
  rw [show dedupFirst Y = Y from dedupFirstAux_eq_self Y [] h6 (fun x _ hx => by cases hx)]
  exact listFilterSelf h7

theorem mem_clean_of_fixed {X : List CleanKg.Row}
    (hX : ∀ r ∈ X, CleanKg.cleanRow r = r) {r : CleanKg.Row}
    (hr : r ∈ CleanKg.clean X) :
    r ∈ X ∧ CleanKg.step1keep r = true ∧ CleanKg.step2keep r = true ∧
      CleanKg.step3keep r = true ∧ CleanKg.step4keep r = true ∧
      CleanKg.step7keep r = true := by
  unfold CleanKg.clean at hr
  rw [listMapSelf (fun a ha => hX a (memF_sub ha))] at hr
  have h7 := (List.mem_filter.mp hr).2
  have hd := (List.mem_filter.mp hr).1
  have hF := mem_of_mem_dedupFirstAux _ _ _ hd
  have h4 := (List.mem_filter.mp hF).2
  have hF3 := (List.mem_filter.mp hF).1
  have h3 := (List.mem_filter.mp hF3).2
  have hF2 := (List.mem_filter.mp hF3).1
  have h2 := (List.mem_filter.mp hF2).2
  have hF1 := (List.mem_filter.mp hF2).1
  have h1 := (List.mem_filter.mp hF1).2
  exact ⟨(List.mem_filter.mp hF1).1, h1, h2, h3, h4, h7⟩

theorem clean_nodup_of_fixed {X : List CleanKg.Row}
    (hX : ∀ r ∈ X, CleanKg.cleanRow r = r) : (CleanKg.clean X).Nodup := by
  unfold CleanKg.clean
  rw [listMapSelf (fun a ha => hX a (memF_sub ha))]
  exact List.Nodup.filter _ (dedupFirstAux_nodup _ []).1

theorem relStep_no_answer {ctx : BuildKg.Ctx} {lines : List String} {i : Nat}
    {line : String} {st : BuildKg.LoopState} {qr : String × BuildKg.Rel}
    (hf : BuildKg.findAnswer lines i = none) :
    BuildKg.relStep ctx lines i line st qr = some st := by
  unfold BuildKg.relStep
  split
  · rw [hf]
  · rfl

theorem relLoop_no_answer {ctx : BuildKg.Ctx} {lines : List String} {i : Nat}
    {line : String} (hf : BuildKg.findAnswer lines i = none) :
    ∀ (qrs : List (String × BuildKg.Rel)) (st : BuildKg.LoopState),
      BuildKg.relLoop ctx lines i line st qrs = some st := by
  intro qrs
  induction qrs with
  | nil => intro st; rfl
  | cons qr rest ih =>
    intro st
    rw [BuildKg.relLoop, relStep_no_answer hf]
    exact ih st

theorem nameStep_no_answer {lines : List String} {i : Nat} {line : String}
    {st : BuildKg.LoopState} (hf : BuildKg.findAnswer lines i = none) :
    BuildKg.nameStep lines i line st = some st := by
  unfold BuildKg.nameStep
  split
  · rw [hf]
  · rfl

theorem processLine_no_answer {ctx : BuildKg.Ctx} {lines : List String} {i : Nat}
    {st st2 : BuildKg.LoopState}
    (h : ∀ l ∈ lines.drop (i + 1), pyStartsWith "A: " l = false)
    (hp : BuildKg.processLine ctx lines i st = some st2) : st2.data = st.data := by
  have hf : BuildKg.findAnswer lines i = none := by
    unfold BuildKg.findAnswer
    rw [List.find?_eq_none.mpr (fun x hx => by rw [h x hx]; exact Bool.false_ne_true)]
    rfl
  simp only [BuildKg.processLine, nameStep_no_answer hf, relLoop_no_answer hf,
    Option.some.injEq] at hp
  split at hp <;> rw [← hp]

theorem relStep_object_ok {ctx : BuildKg.Ctx} {lines : List String} {i : Nat}
    {line : String} {st st2 : BuildKg.LoopState} {q : String} {rel : BuildKg.Rel}
    (hp : BuildKg.relStep ctx lines i line st (q, rel) = some st2)
    (hg : ∀ t ∈ st.data, BuildKg.verbatimRel t.predicate = true →
      hasNonWs t.object = true) :
    ∀ t ∈ st2.data, BuildKg.verbatimRel t.predicate = true →
      hasNonWs t.object = true := by
  unfold BuildKg.relStep at hp
  split at hp
  · cases hf : BuildKg.findAnswer lines i with
    | none =>
      rw [hf] at hp
      injection hp with h2
      subst h2
      exact hg
    | some al =>
      simp only [hf] at hp
      cases hpdf : st.current_pdf with
      | none => rw [hpdf] at hp; cases hp
      | some p =>
        simp only [hpdf] at hp
        cases ho : BuildKg.objectsFor ctx lines i rel (BuildKg.answerOf al) with
        | none => rw [ho] at hp; cases hp
        | some objs =>
          simp only [ho, Option.some.injEq] at hp
          subst hp
          intro t ht hv
          rcases List.mem_append.mp ht with hmem | hmem
          · exact hg t hmem hv
          · obtain ⟨o, hoo, rfl⟩ := List.mem_map.mp hmem
            show hasNonWs o = true
            cases rel with
            | HAS_NAME =>
              simp only [BuildKg.objectsFor, Option.some.injEq] at ho
              rw [← ho] at hoo
              have : o = BuildKg.answerOf al := by simpa using hoo
              rw [this]
              exact answer_object_ok hf
            | HAS_STORAGE_INFO =>
              simp only [BuildKg.objectsFor, Option.some.injEq] at ho
              rw [← ho] at hoo
              have : o = BuildKg.answerOf al := by simpa using hoo
              rw [this]
              exact answer_object_ok hf
            | HAS_SHAPE =>
              simp only [BuildKg.objectsFor, Option.some.injEq] at ho
              rw [← ho] at hoo
              have : o = BuildKg.answerOf al := by simpa using hoo
              rw [this]
              exact answer_object_ok hf
            | HAS_DOSAGE_INFO =>
              simp only [BuildKg.objectsFor, Option.some.injEq] at ho
              rw [← ho] at hoo
              exact extract_dosage_values_nonws hoo
            | HAS_SIDE_EFFECT => simp [BuildKg.verbatimRel] at hv
            | HAS_ACTIVE_INGREDIENT => simp [BuildKg.verbatimRel] at hv
            | HAS_INACTIVE_INGREDIENT => simp [BuildKg.verbatimRel] at hv
            | HAS_CONTRAINDICATION => simp [BuildKg.verbatimRel] at hv
            | HAS_WARNING => simp [BuildKg.verbatimRel] at hv
            | HAS_COLOUR => simp [BuildKg.verbatimRel] at hv
  · injection hp with h2
    subst h2
    exact hg

theorem relLoop_object_ok {ctx : BuildKg.Ctx} {lines : List String} {i : Nat}
    {line : String} :
    ∀ {qrs : List (String × BuildKg.Rel)} {st st2 : BuildKg.LoopState},
      BuildKg.relLoop ctx lines i line st qrs = some st2 →
      (∀ t ∈ st.data, BuildKg.verbatimRel t.predicate = true →
        hasNonWs t.object = true) →
      ∀ t ∈ st2.data, BuildKg.verbatimRel t.predicate = true →
        hasNonWs t.object = true := by
  intro qrs
  induction qrs with
  | nil =>
    intro st st2 hp hg
    injection hp with h2
    subst h2
    exact hg
  | cons qr rest ih =>
    intro st st2 hp hg
    rw [BuildKg.relLoop] at hp
    cases hs : BuildKg.relStep ctx lines i line st qr with
    | none => rw [hs] at hp; cases hp
    | some stx =>
      rw [hs] at hp
      obtain ⟨q, rel⟩ := qr
      exact ih hp (relStep_object_ok hs hg)

theorem nameStep_data {lines : List String} {i : Nat} {line : String}
    {st st2 : BuildKg.LoopState}
    (hp : BuildKg.nameStep lines i line st = some st2) : st2.data = st.data := by
  unfold BuildKg.nameStep at hp
  split at hp
  · cases hf : BuildKg.findAnswer lines i with
    | none =>
      rw [hf] at hp
      injection hp with h2
      subst h2
      rfl
    | some al =>
      simp only [hf] at hp
      cases hpdf : st.current_pdf with
      | none => rw [hpdf] at hp; cases hp
      | some p =>
        simp only [hpdf, Option.some.injEq] at hp
        subst hp
        rfl
  · injection hp with h2
    subst h2
    rfl

theorem nameRel_object_ok {ctx : BuildKg.Ctx} {lines : List String} {i : Nat}
    {line : String} {st1 st2 : BuildKg.LoopState}
    (hp : (match BuildKg.nameStep lines i line st1 with
           | none => none
           | some stx => BuildKg.relLoop ctx lines i line stx
               BuildKg.relationship_mappings) = some st2)
    (hg : ∀ t ∈ st1.data, BuildKg.verbatimRel t.predicate = true →
      hasNonWs t.object = true) :
    ∀ t ∈ st2.data, BuildKg.verbatimRel t.predicate = true →
      hasNonWs t.object = true := by
  cases hn : BuildKg.nameStep lines i line st1 with
  | none => rw [hn] at hp; cases hp
  | some stx =>
    rw [hn] at hp
    refine relLoop_object_ok hp ?_
    rw [nameStep_data hn]
    exact hg

theorem processLine_object_ok {ctx : BuildKg.Ctx} {lines : List String} {i : Nat}
    {st st2 : BuildKg.LoopState}
    (hp : BuildKg.processLine ctx lines i st = some st2)
    (hg : ∀ t ∈ st.data, BuildKg.verbatimRel t.predicate = true →
      hasNonWs t.object = true) :
    ∀ t ∈ st2.data, BuildKg.verbatimRel t.predicate = true →
      hasNonWs t.object = true := by
  simp only [BuildKg.processLine] at hp
  refine nameRel_object_ok hp ?_
  split
  · exact hg
  · exact hg

theorem runAll_object_ok {ctx : BuildKg.Ctx} {lines : List String} :
    ∀ {idxs : List Nat} {st st2 : BuildKg.LoopState},
      BuildKg.runAll ctx lines st idxs = some st2 →
      (∀ t ∈ st.data, BuildKg.verbatimRel t.predicate = true →
        hasNonWs t.object = true) →
      ∀ t ∈ st2.data, BuildKg.verbatimRel t.predicate = true →
        hasNonWs t.object = true := by
  intro idxs
  induction idxs with
  | nil =>
    intro st st2 hp hg
    injection hp with h2
    subst h2
    exact hg
  | cons i is ih =>
    intro st st2 hp hg
    rw [BuildKg.runAll] at hp
    cases hs : BuildKg.processLine ctx lines i st with
    | none => rw [hs] at hp; cases hp
    | some stx =>
      rw [hs] at hp
      exact ih hp (processLine_object_ok hs hg)

theorem relStep_frame {ctx : BuildKg.Ctx} {lines : List String} {i : Nat}
    {line : String} {st st2 : BuildKg.LoopState} {qr : String × BuildKg.Rel}
    (hp : BuildKg.relStep ctx lines i line st qr = some st2) :
    st2.current_pdf = st.current_pdf ∧ st2.mapping = st.mapping ∧
      ∀ t ∈ st2.data, t ∈ st.data ∨
        ∃ p, st.current_pdf = some p ∧
          t.subject = (BuildKg.assocGet p st.mapping).getD p := by
  unfold BuildKg.relStep at hp
  split at hp
  · cases hf : BuildKg.findAnswer lines i with
    | none =>
      rw [hf] at hp
      injection hp with h2
      subst h2
      exact ⟨rfl, rfl, fun t ht => Or.inl ht⟩
    | some al =>
      simp only [hf] at hp
      cases hpdf : st.current_pdf with
      | none => rw [hpdf] at hp; cases hp
      | some p =>
        simp only [hpdf] at hp
        cases ho : BuildKg.objectsFor ctx lines i qr.2 (BuildKg.answerOf al) with
        | none => rw [ho] at hp; cases hp
        | some objs =>
          simp only [ho, Option.some.injEq] at hp
          subst hp
          refine ⟨rfl, rfl, ?_⟩
          intro t ht
          rcases List.mem_append.mp ht with h | h
          · exact Or.inl h
          · obtain ⟨o, hoo, rfl⟩ := List.mem_map.mp h
            exact Or.inr ⟨p, rfl, rfl⟩
  · injection hp with h2
    subst h2
    exact ⟨rfl, rfl, fun t ht => Or.inl ht⟩

theorem relLoop_frame {ctx : BuildKg.Ctx} {lines : List String} {i : Nat}
    {line : String} :
    ∀ {qrs : List (String × BuildKg.Rel)} {st st2 : BuildKg.LoopState},
      BuildKg.relLoop ctx lines i line st qrs = some st2 →
      st2.current_pdf = st.current_pdf ∧ st2.mapping = st.mapping ∧
        ∀ t ∈ st2.data, t ∈ st.data ∨
          ∃ p, st.current_pdf = some p ∧
            t.subject = (BuildKg.assocGet p st.mapping).getD p := by
  intro qrs
  induction qrs with
  | nil =>
    intro st st2 hp
    injection hp with h2
    subst h2
    exact ⟨rfl, rfl, fun t ht => Or.inl ht⟩
  | cons qr rest ih =>
    intro st st2 hp
    rw [BuildKg.relLoop] at hp
    cases hs : BuildKg.relStep ctx lines i line st qr with
    | none => rw [hs] at hp; cases hp
    | some stx =>
      rw [hs] at hp
      obtain ⟨e1, e2, hT⟩ := relStep_frame hs
      obtain ⟨f1, f2, hT2⟩ := ih hp
      refine ⟨f1.trans e1, f2.trans e2, ?_⟩
      intro t ht
      rcases hT2 t ht with h | ⟨p, hp1, hp2⟩
      · rcases hT t h with h2 | ⟨p, hp1, hp2⟩
        · exact Or.inl h2
        · exact Or.inr ⟨p, hp1, hp2⟩
      · rw [e1] at hp1
        rw [e2] at hp2
        exact Or.inr ⟨p, hp1, hp2⟩

theorem nameStep_not_name {lines : List String} {i : Nat} {line : String}
    {st : BuildKg.LoopState}
    (h : pyStartsWith "Q: What is the name of the drug/medicine?" line = false) :
    BuildKg.nameStep lines i line st = some st := by
  rw [BuildKg.nameStep, if_neg (by rw [h]; exact Bool.false_ne_true)]

theorem processLine_inert {ctx : BuildKg.Ctx} {lines : List String} {i : Nat}
    {st st2 : BuildKg.LoopState}
    (hm : pyStartsWith "Drug Leaflet:" (pyStrip (lines.getD i "")) = false)
    (hn : pyStartsWith "Q: What is the name of the drug/medicine?"
      (pyStrip (lines.getD i "")) = false)
    (hp : BuildKg.processLine ctx lines i st = some st2) :
    st2.current_pdf = st.current_pdf ∧ st2.mapping = st.mapping ∧
      ∀ t ∈ st2.data, t ∈ st.data ∨
        ∃ p, st.current_pdf = some p ∧
          t.subject = (BuildKg.assocGet p st.mapping).getD p := by
  simp only [BuildKg.processLine, hm, Bool.false_eq_true, if_false,
    nameStep_not_name hn] at hp
  exact relLoop_frame hp

theorem runAll_subject {ctx : BuildKg.Ctx} {lines : List String} {p name : String} :
    ∀ {idxs : List Nat} {st st2 : BuildKg.LoopState},
      st.current_pdf = some p →
      BuildKg.assocGet p st.mapping = some name →
      (∀ i ∈ idxs,
        pyStartsWith "Drug Leaflet:" (pyStrip (lines.getD i "")) = false ∧
        pyStartsWith "Q: What is the name of the drug/medicine?"
          (pyStrip (lines.getD i "")) = false) →
      BuildKg.runAll ctx lines st idxs = some st2 →
      st2.current_pdf = some p ∧ st2.mapping = st.mapping ∧
        ∀ t ∈ st2.data, t ∈ st.data ∨ t.subject = name := by
  intro idxs
  induction idxs with
  | nil =>
    intro st st2 hpdf hname _ hp
    injection hp with h2
    subst h2
    exact ⟨hpdf, rfl, fun t ht => Or.inl ht⟩
  | cons i is ih =>
    intro st st2 hpdf hname hlines hp
    rw [BuildKg.runAll] at hp
    cases hs : BuildKg.processLine ctx lines i st with
    | none => rw [hs] at hp; cases hp
    | some stx =>
      rw [hs] at hp
      obtain ⟨hm, hn⟩ := hlines i (List.mem_cons_self i is)
      obtain ⟨e1, e2, hT⟩ := processLine_inert hm hn hs
      have hpdfx : stx.current_pdf = some p := by rw [e1]; exact hpdf
      have hnamex : BuildKg.assocGet p stx.mapping = some name := by
        rw [e2]; exact hname
      obtain ⟨f1, f2, hT2⟩ :=
        ih hpdfx hnamex (fun j hj => hlines j (List.mem_cons_of_mem i hj)) hp
      refine ⟨f1, f2.trans e2, ?_⟩
      intro t ht
      rcases hT2 t ht with h | h
      · rcases hT t h with h2 | ⟨p2, hp1, hp2⟩
        · exact Or.inl h2
        · rw [hpdf] at hp1
          injection hp1 with hp1
          subst hp1
          rw [hname] at hp2
          exact Or.inr hp2
      · exact Or.inr h

/-! ## Claim theorems -/

/-- Claim C1 (amended): for every transcript on which the emitter runs to
completion, every emitted triple whose predicate comes from a verbatim
branch (HAS_NAME, HAS_STORAGE_INFO, HAS_SHAPE) or from the dosage branch
has a non-empty object after trimming.  (The comma-splitting colour and
list branches can emit empty objects, and the subject can be empty when
the block marker carries an empty source identifier — see the
counterexample.) -/
theorem c1_verbatim_objects_nonempty (ctx : BuildKg.Ctx) (lines : List String)
    (out : List BuildKg.Triple) (h : BuildKg.buildKG ctx lines = some out) :
    ∀ t ∈ out, BuildKg.verbatimRel t.predicate = true → pyStrip t.object ≠ "" := by
  unfold BuildKg.buildKG at h
  cases hr : BuildKg.runAll ctx lines ⟨none, [], []⟩ (List.range lines.length) with
  | none => rw [hr] at h; cases h
  | some st =>
    rw [hr] at h
    injection h with h2
    subst h2
    intro t ht hv
    have hmem := mem_of_mem_dedupFirstAux _ _ _ ht
    have hinv := runAll_object_ok hr
      (fun t ht2 => absurd ht2 (List.not_mem_nil t))
    exact hasNonWs_pyStrip_ne (hinv t hmem hv)

/-- Witness for C1: a concrete storage transcript, with the theorem
applied to it. -/
theorem c1_witness :
    BuildKg.buildKG BuildKg.ctx0 BuildKg.linesStorage = some BuildKg.outStorage ∧
    ∀ t ∈ BuildKg.outStorage, BuildKg.verbatimRel t.predicate = true →
      pyStrip t.object ≠ "" := by
  have h : BuildKg.buildKG BuildKg.ctx0 BuildKg.linesStorage =
      some BuildKg.outStorage := by decide
  exact ⟨h, c1_verbatim_objects_nonempty _ _ _ h⟩

/-- Counterexample for C1 as stated: a colour answer with a trailing comma
(and a block marker with an empty source identifier) emits a triple whose
subject and object are both empty. -/
theorem c1_counterexample :
    BuildKg.buildKG BuildKg.ctx0 BuildKg.linesEmptyObj =
      some [⟨"", .HAS_COLOUR, "red"⟩, ⟨"", .HAS_COLOUR, ""⟩] ∧
    ∃ out, BuildKg.buildKG BuildKg.ctx0 BuildKg.linesEmptyObj = some out ∧
      ∃ t ∈ out, pyStrip t.object = "" ∧ pyStrip t.subject = "" := by
  refine ⟨by decide, [⟨"", .HAS_COLOUR, "red"⟩, ⟨"", .HAS_COLOUR, ""⟩], by decide,
    ⟨"", .HAS_COLOUR, ""⟩, by decide, by decide, by decide⟩

/-- Claim C2 (amended): the KG Cleaner is idempotent on every table whose
Subject and Object strings are already fixed points of the rule-5
special-character cleaning.  (In general it is not idempotent: rule 5 can
strip punctuation and expose a placeholder prefix that rule 2 only removes
on the next run — see the counterexample.) -/
theorem c2_clean_idempotent_on_fixed (X : List CleanKg.Row)
    (hX : ∀ r ∈ X, CleanKg.cleanRow r = r) :
    CleanKg.clean (CleanKg.clean X) = CleanKg.clean X := by
  apply clean_eq_self_of
  · intro r hr; exact (mem_clean_of_fixed hX hr).2.1
  · intro r hr; exact (mem_clean_of_fixed hX hr).2.2.1
  · intro r hr; exact (mem_clean_of_fixed hX hr).2.2.2.1
  · intro r hr; exact (mem_clean_of_fixed hX hr).2.2.2.2.1
  · intro r hr; exact hX r (mem_clean_of_fixed hX hr).1
  · exact clean_nodup_of_fixed hX
  · intro r hr; exact (mem_clean_of_fixed hX hr).2.2.2.2.2

/-- Witness for C2: a concrete fixed table, with the theorem applied. -/
theorem c2_witness :
    (∀ r ∈ CleanKg.tblFixed, CleanKg.cleanRow r = r) ∧
    CleanKg.clean (CleanKg.clean CleanKg.tblFixed) = CleanKg.clean CleanKg.tblFixed := by
  have h : ∀ r ∈ CleanKg.tblFixed, CleanKg.cleanRow r = r := by decide
  exact ⟨h, c2_clean_idempotent_on_fixed CleanKg.tblFixed h⟩

/-- Counterexample for C2 as stated: on the table with single row
(Subject "-not-", Object "headache"), one cleaning pass yields Subject
"not" (kept), but a second pass drops the row because "not" now matches
the placeholder prefix pattern — so clean(clean X) differs from
clean(X). -/
theorem c2_counterexample :
    CleanKg.clean (CleanKg.clean CleanKg.tblNotRow) ≠ CleanKg.clean CleanKg.tblNotRow := by
  decide

/-- Claim C3: `extract_dosage_values` implements the spec's output rule
(two objects "{min} mg"/"{max} mg" for two or more captured integers, one
object for one, the marker phrase when none is captured but some line
contains it, nothing otherwise), and the spec's examples evaluate as
stated. -/
theorem c3_dosage_extraction :
    (∀ l, BuildKg.extract_dosage_values l = BuildKg.dosageSpecRule l) ∧
    BuildKg.extract_dosage_values ["120 mg twice daily", "60 mg once daily"] =
      ["60 mg", "120 mg"] ∧
    BuildKg.extract_dosage_values ["Dosage to be prescribed by doctor"] =
      ["Dosage to be prescribed by doctor"] ∧
    BuildKg.extract_dosage_values [] = [] :=
  ⟨extract_eq_spec, by decide, by decide, rfl⟩

/-- Claim C4: fuzzy correction replaces the term with the best vocabulary
match exactly when the similarity score is strictly greater than 85; at a
score of exactly 85 the term is returned unchanged. -/
theorem c4_fuzzy_threshold (scorer : String → String → Nat) (terms : List String)
    (entity m : String) (s : Nat)
    (h : BuildKg.extractOne scorer entity terms = some (m, s)) :
    BuildKg.fuzzy_match_entity scorer terms entity =
      some (if 85 < s then m else entity) ∧
    (s = 85 → BuildKg.fuzzy_match_entity scorer terms entity = some entity) := by
  unfold BuildKg.fuzzy_match_entity
  rw [h]
  refine ⟨rfl, ?_⟩
  intro hs
  subst hs
  simp

/-- Witness for C4: a constant scorer with score exactly 85 leaves the
term unchanged. -/
theorem c4_witness :
    BuildKg.extractOne (fun _ _ => 85) "y" ["x"] = some ("x", 85) ∧
    BuildKg.fuzzy_match_entity (fun _ _ => 85) ["x"] "y" = some "y" := by
  have h : BuildKg.extractOne (fun _ _ => 85) "y" ["x"] = some ("x", 85) := by decide
  exact ⟨h, (c4_fuzzy_threshold _ _ _ _ _ h).2 rfl⟩

/-- Claim C5: `standardize_dosage` replaces long-form unit names
case-insensitively and only at word boundaries ("500 milligram" becomes
"500 mg", "500 MILLIGRAM" too, while "500 milligrams" and "a500milligram"
are untouched), and a string with no whole-word occurrence of any unit
name is returned unchanged. -/
theorem c5_standardize_dosage :
    BuildKg.standardize_dosage "500 milligram" = "500 mg" ∧
    BuildKg.standardize_dosage "500 MILLIGRAM" = "500 mg" ∧
    BuildKg.standardize_dosage "500 milligrams" = "500 milligrams" ∧
    BuildKg.standardize_dosage "a500milligram" = "a500milligram" ∧
    ∀ s : String, (∀ p ∈ BuildKg.unit_mapping,
      BuildKg.hasWordOccCI p.1.data false s.data = false) →
      BuildKg.standardize_dosage s = s :=
  ⟨by decide, by decide, by decide, by decide, fun _ h => standardize_dosage_id h⟩

/-- Witness for C5: the general part applied to a unit-free string. -/
theorem c5_witness :
    (∀ p ∈ BuildKg.unit_mapping,
      BuildKg.hasWordOccCI p.1.data false ("take daily").data = false) ∧
    BuildKg.standardize_dosage "take daily" = "take daily" := by
  have h : ∀ p ∈ BuildKg.unit_mapping,
      BuildKg.hasWordOccCI p.1.data false ("take daily").data = false := by decide
  exact ⟨h, c5_standardize_dosage.2.2.2.2 "take daily" h⟩

/-- Claim C6 (amended): rule 5 strips exactly the maximal leading and
trailing runs of characters outside the ASCII class [A-Za-z0-9] (after
whitespace stripping): the result is an infix of the stripped input, the
removed edges contain no ASCII alphanumeric character, and the result's
first and last characters (if any) are ASCII alphanumeric.  In particular
"-- nausea!!" becomes "nausea".  The test is NOT Unicode-aware: non-ASCII
letters at the edges are stripped too ("café" becomes "caf"). -/
theorem c6_clean_specials :
    CleanKg.clean_specials "-- nausea!!" = "nausea" ∧
    CleanKg.clean_specials "café" = "caf" ∧
    ∀ s : String, ∃ pre post,
      pyStripL s.data = pre ++ (CleanKg.clean_specials s).data ++ post ∧
      (∀ c ∈ pre, c.isAlphanum = false) ∧
      (∀ c ∈ post, c.isAlphanum = false) ∧
      (∀ c, (CleanKg.clean_specials s).data.head? = some c → c.isAlphanum = true) ∧
      (∀ c, (CleanKg.clean_specials s).data.getLast? = some c → c.isAlphanum = true) := by
  refine ⟨by decide, by decide, ?_⟩
  intro s
  obtain ⟨pre, post, hdec, hpre, hpost, hhead, hlast⟩ :=
    dropEdges_decomp (fun c => !c.isAlphanum) (pyStripL s.data)
  refine ⟨pre, post, hdec, ?_, ?_, ?_, ?_⟩
  · intro c hc; simpa using hpre c hc
  · intro c hc; simpa using hpost c hc
  · intro c hc; simpa using hhead c hc
  · intro c hc; simpa using hlast c hc

/-- Witness for C6: the example from the spec, via the theorem. -/
theorem c6_witness : CleanKg.clean_specials "-- nausea!!" = "nausea" :=
  c6_clean_specials.1

/-- Counterexample for C6 as stated ("Unicode-aware ... non-ASCII letters
are preserved"): the trailing non-ASCII letter of "café" is stripped. -/
theorem c6_counterexample :
    CleanKg.clean_specials "café" = "caf" ∧
    CleanKg.clean_specials "café" ≠ "café" := by
  exact ⟨by decide, by decide⟩

/-- After exhausting every attempt without a successful response, the
extraction client's `query_model` returns `None`. -/
theorem ei_query_model_none {outcomes : Nat → ExtractInfo.TransportOutcome} :
    ∀ (fuel i : Nat),
      (∀ k, k < fuel → ∀ c, outcomes (i + k) ≠ ExtractInfo.TransportOutcome.success c) →
      ExtractInfo.query_model outcomes fuel i = none := by
  intro fuel
  induction fuel with
  | zero => intro i _; rfl
  | succ fuel ih =>
    intro i h
    rw [ExtractInfo.query_model]
    cases ho : outcomes i with
    | success c =>
      exact absurd ho (by simpa using h 0 (Nat.succ_pos fuel) c)
    | timeout =>
      exact ih (i + 1) (fun k hk c => by
        have h2 := h (k + 1) (by omega) c
        rw [show i + 1 + k = i + (k + 1) by omega]
        exact h2)
    | requestError =>
      exact ih (i + 1) (fun k hk c => by
        have h2 := h (k + 1) (by omega) c
        rw [show i + 1 + k = i + (k + 1) by omega]
        exact h2)

/-- After exhausting every attempt without a successful response, the
post-processing client's `query_model` returns the original context. -/
theorem pp_query_model_ctx {context : String} {outcomes : Nat → PostprocessKg.PPOutcome} :
    ∀ (fuel i : Nat),
      (∀ k, k < fuel → ∀ c, outcomes (i + k) ≠ PostprocessKg.PPOutcome.success c) →
      PostprocessKg.query_model context outcomes fuel i = context := by
  intro fuel
  induction fuel with
  | zero => intro i _; rfl
  | succ fuel ih =>
    intro i h
    rw [PostprocessKg.query_model]
    cases ho : outcomes i with
    | success c =>
      exact absurd ho (by simpa using h 0 (Nat.succ_pos fuel) c)
    | requestError =>
      exact ih (i + 1) (fun k hk c => by
        have h2 := h (k + 1) (by omega) c
        rw [show i + 1 + k = i + (k + 1) by omega]
        exact h2)

/-- Claim C7: when every one of the `retries` transport attempts fails,
the extraction client's `query_model` returns `None` and never an
exception; its callers receive their defined fallbacks — the literal
"No special storage" for storage refinement, the empty list for dosage
refinement — and the post-processing client returns the original context
text. -/
theorem c7_retry_fallbacks (retries : Nat)
    (outcomes : Nat → ExtractInfo.TransportOutcome)
    (pp : Nat → PostprocessKg.PPOutcome)
    (storage dosageText context : String)
    (h1 : ∀ k, k < retries → ∀ c, outcomes k ≠ ExtractInfo.TransportOutcome.success c)
    (h2 : ∀ k, k < retries → ∀ c, pp k ≠ PostprocessKg.PPOutcome.success c) :
    ExtractInfo.query_model outcomes retries 0 = none ∧
    ExtractInfo.extract_temperature_info storage outcomes retries = "No special storage" ∧
    ExtractInfo.extract_dosage_info dosageText outcomes retries = [] ∧
    PostprocessKg.query_model context pp retries 0 = context := by
  have hq : ExtractInfo.query_model outcomes retries 0 = none :=
    ei_query_model_none retries 0 (fun k hk c => by simpa using h1 k hk c)
  refine ⟨hq, ?_, ?_,
    pp_query_model_ctx retries 0 (fun k hk c => by simpa using h2 k hk c)⟩
  · unfold ExtractInfo.extract_temperature_info
    rw [hq]
  · unfold ExtractInfo.extract_dosage_info
    rw [hq]

/-- Witness for C7: three all-timeout attempts and three all-error
attempts, with the theorem applied. -/
theorem c7_witness :
    ExtractInfo.query_model (fun _ => ExtractInfo.TransportOutcome.timeout) 3 0 = none ∧
    ExtractInfo.extract_temperature_info "stored below 25 degrees"
      (fun _ => ExtractInfo.TransportOutcome.timeout) 3 = "No special storage" ∧
    ExtractInfo.extract_dosage_info "take one tablet"
      (fun _ => ExtractInfo.TransportOutcome.timeout) 3 = [] ∧
    PostprocessKg.query_model "high blood pressure causing headache"
      (fun _ => PostprocessKg.PPOutcome.requestError) 3 0 =
      "high blood pressure causing headache" :=
  c7_retry_fallbacks 3 _ _ _ _ _
    (fun _ _ _ h => ExtractInfo.TransportOutcome.noConfusion h)
    (fun _ _ _ h => PostprocessKg.PPOutcome.noConfusion h)

/-- Claim C8 (amended): within a stretch of the transcript containing no
block-marker line and no drug-name question line, once the drug name has
been resolved for the current source (the name question, with an answer,
has already been processed), every triple emitted over that stretch
carries the resolved name as its subject; the source and the name mapping
do not change.  (The claim as stated fails: a question placed BEFORE the
block's HAS_NAME question is emitted with the raw source identifier as
subject, so one block can emit two different subjects — see the
counterexample.) -/
theorem c8_subject_resolution (ctx : BuildKg.Ctx) (lines : List String)
    (idxs : List Nat) (st st2 : BuildKg.LoopState) (p name : String)
    (hpdf : st.current_pdf = some p)
    (hname : BuildKg.assocGet p st.mapping = some name)
    (hlines : ∀ i ∈ idxs,
      pyStartsWith "Drug Leaflet:" (pyStrip (lines.getD i "")) = false ∧
      pyStartsWith "Q: What is the name of the drug/medicine?"
        (pyStrip (lines.getD i "")) = false)
    (hrun : BuildKg.runAll ctx lines st idxs = some st2) :
    st2.current_pdf = some p ∧ st2.mapping = st.mapping ∧
      ∀ t ∈ st2.data, t ∈ st.data ∨ t.subject = name :=
  runAll_subject hpdf hname hlines hrun

/-- Witness for C8: a colour question processed after the name "Aspirin"
has been resolved for source "A.pdf" emits its triple with subject
"Aspirin". -/
theorem c8_witness :
    BuildKg.runAll BuildKg.ctx0 BuildKg.linesColourOnly BuildKg.stResolved [1, 2] =
      some BuildKg.stResolvedOut ∧
    ∀ t ∈ BuildKg.stResolvedOut.data,
      t ∈ BuildKg.stResolved.data ∨ t.subject = "Aspirin" := by
  have h : BuildKg.runAll BuildKg.ctx0 BuildKg.linesColourOnly BuildKg.stResolved [1, 2] =
      some BuildKg.stResolvedOut := by decide
  exact ⟨h, (c8_subject_resolution BuildKg.ctx0 BuildKg.linesColourOnly [1, 2]
    BuildKg.stResolved BuildKg.stResolvedOut "A.pdf" "Aspirin" rfl (by decide)
    (by decide) h).2.2⟩

/-- Counterexample for C8 as stated: in a single block whose shape question
precedes the HAS_NAME question, the shape triple's subject is the raw
source identifier "A.pdf" while the later triples' subject is the resolved
name "Aspirin" — two different subjects in one block although the HAS_NAME
QAPair is present. -/
theorem c8_counterexample :
    BuildKg.buildKG BuildKg.ctx0 BuildKg.linesShapeFirst =
      some [⟨"A.pdf", .HAS_SHAPE, "round"⟩, ⟨"Aspirin", .HAS_NAME, "Aspirin"⟩,
        ⟨"Aspirin", .HAS_COLOUR, "red"⟩] ∧
    ("A.pdf" : String) ≠ "Aspirin" := by
  exact ⟨by decide, by decide⟩

/-- Claim C9: the answer line used for a recognized question is the first
line starting with "A: " anywhere below the question in the whole file,
not bounded to the current block (in the concrete transcript, block A's
shape question picks up block B's answer "Bspirin"); and when no "A: "
line exists anywhere below a line, processing that line emits nothing. -/
theorem c9_answer_search_global :
    BuildKg.buildKG BuildKg.ctx0 BuildKg.linesCrossBlock =
      some [⟨"Aspirin", .HAS_NAME, "Aspirin"⟩, ⟨"Aspirin", .HAS_SHAPE, "Bspirin"⟩,
        ⟨"Bspirin", .HAS_NAME, "Bspirin"⟩] ∧
    ∀ (ctx : BuildKg.Ctx) (lines : List String) (i : Nat)
      (st st2 : BuildKg.LoopState),
      (∀ l ∈ lines.drop (i + 1), pyStartsWith "A: " l = false) →
      BuildKg.processLine ctx lines i st = some st2 → st2.data = st.data :=
  ⟨by decide, fun _ _ _ _ _ h hp => processLine_no_answer h hp⟩

/-- Witness for C9: a shape question with no answer line below leaves the
collected data unchanged. -/
theorem c9_witness :
    ∃ st2, BuildKg.processLine BuildKg.ctx0 BuildKg.linesNoAnswer 1
      BuildKg.stResolved = some st2 ∧ st2.data = BuildKg.stResolved.data := by
  have h : BuildKg.processLine BuildKg.ctx0 BuildKg.linesNoAnswer 1
      BuildKg.stResolved = some BuildKg.stResolved := by decide
  exact ⟨BuildKg.stResolved, h,
    c9_answer_search_global.2 BuildKg.ctx0 BuildKg.linesNoAnswer 1
      BuildKg.stResolved BuildKg.stResolved (by decide) h⟩

/-- Claim C10: `fuzzy_match_entity` crashes (models the TypeError from
unpacking `extractOne`'s `None`) exactly on an empty vocabulary: with an
empty medical-terms list it fails for every term (and the whole emitter
fails on any transcript with a list-predicate question), while with a
non-empty vocabulary it always returns a value (and the same transcript is
processed). -/
theorem c10_fuzzy_empty_vocab :
    (∀ (scorer : String → String → Nat) (entity : String),
      BuildKg.fuzzy_match_entity scorer [] entity = none) ∧
    (∀ (scorer : String → String → Nat) (entity t : String) (ts : List String),
      (BuildKg.fuzzy_match_entity scorer (t :: ts) entity).isSome = true) ∧
    BuildKg.buildKG BuildKg.ctxEmptyVocab BuildKg.linesWarning = none ∧
    (BuildKg.buildKG BuildKg.ctx0 BuildKg.linesWarning).isSome = true := by
  refine ⟨fun _ _ => rfl, ?_, by decide, by decide⟩
  intro scorer entity t ts
  cases h : BuildKg.extractOne scorer entity ts with
  | none => simp [BuildKg.fuzzy_match_entity, BuildKg.extractOne, h]
  | some ms =>
    obtain ⟨m, sc⟩ := ms
    by_cases hge : scorer entity t ≥ sc
    · simp [BuildKg.fuzzy_match_entity, BuildKg.extractOne, h, hge]
    · simp [BuildKg.fuzzy_match_entity, BuildKg.extractOne, h, hge]
